import Mathlib

/-!
Verification of the node change tracker, node map, topology endpoint
filter and ipset reconciler of the proxy package.

The Go code is embedded shallowly: Go maps become association lists
looked up by key, `nil` pointers become `Option`, and `reflect.DeepEqual`
on the converted node snapshots becomes an extensional equality on the
label maps.  Every definition mirrors the corresponding Go function.
-/

set_option autoImplicit false

abbrev NodeName := String

abbrev Labels := List (String × String)

/-- Lookup in a Go `map[string]string`, modelled as an association list
(first binding wins). -/
def labelsLookup : Labels → String → Option String
  | [], _ => none
  | (k, v) :: rest, key => if k = key then some v else labelsLookup rest key

/-- `reflect.DeepEqual` on two `map[string]string` values: the maps hold
exactly the same bindings. -/
def labelsEqual (a b : Labels) : Bool :=
  a.all (fun p => labelsLookup a p.1 == labelsLookup b p.1) &&
    b.all (fun p => labelsLookup a p.1 == labelsLookup b p.1)

/-- `BaseNodeInfo`: the one concrete implementation of the proxy `Node`
interface, the converted {identity, topology-label} snapshot. -/
structure Node where
  name : NodeName
  labels : Labels
deriving DecidableEq

/-- `BaseNodeInfo.GetTopologyValue`. -/
def Node.getTopologyValue (info : Node) (key : String) : Option String :=
  labelsLookup info.labels key

/-- The fields of a `v1.Node` that the tracker reads: `ObjectMeta.Name`
and `ObjectMeta.Labels`. -/
structure V1Node where
  name : String
  labels : Labels
deriving DecidableEq

/-- `NodeChangeTracker.convertNode`: nil stays nil, otherwise a
`BaseNodeInfo` is built from name and labels. -/
def convertNode : Option V1Node → Option Node
  | none => none
  | some node => some ⟨node.name, node.labels⟩

/-- `reflect.DeepEqual` on two converted nodes. -/
def nodeEqual (a b : Node) : Bool :=
  a.name == b.name && labelsEqual a.labels b.labels

/-- `reflect.DeepEqual` on two possibly-nil converted nodes. -/
def optNodeEqual : Option Node → Option Node → Bool
  | none, none => true
  | some a, some b => nodeEqual a b
  | _, _ => false

/-- `nodeChange`: the accumulated (previous, current) pair for one
identity. -/
structure NodeChange where
  previous : Option Node
  current : Option Node
deriving DecidableEq

/-- The items of a `NodeChangeTracker`: a Go `map[types.NodeName]*nodeChange`
modelled as an association list with distinct keys. -/
abbrev ChangeItems := List (NodeName × NodeChange)

def lookupChange : ChangeItems → NodeName → Option NodeChange
  | [], _ => none
  | (k, c) :: rest, key => if k = key then some c else lookupChange rest key

def changeDelete : ChangeItems → NodeName → ChangeItems
  | [], _ => []
  | (k, c) :: rest, key =>
    if k = key then changeDelete rest key else (k, c) :: changeDelete rest key

def changeInsert (items : ChangeItems) (key : NodeName) (c : NodeChange) : ChangeItems :=
  (key, c) :: changeDelete items key

/-- `NodeChangeTracker` (the lock is a concurrency artifact and has no
sequential content). -/
structure NodeChangeTracker where
  items : ChangeItems
deriving DecidableEq

/-- `NodeChangeTracker.Update`: picks the identity from `current`,
falling back to `previous`; returns the tracker unchanged and `false`
when both are nil; otherwise creates the record on first touch with
`previous` set to the converted prior snapshot, always overwrites
`current`, deletes the record when previous deep-equals current, and
reports whether any records remain. -/
def NodeChangeTracker.Update (ect : NodeChangeTracker) (previous current : Option V1Node) :
    NodeChangeTracker × Bool :=
  match (match current with | some n => some n | none => previous) with
  | none => (ect, false)
  | some node =>
    let prevField :=
      match lookupChange ect.items node.name with
      | some change => change.previous
      | none => convertNode previous
    let change : NodeChange := ⟨prevField, convertNode current⟩
    let items :=
      if optNodeEqual change.previous change.current then
        changeDelete ect.items node.name
      else
        changeInsert ect.items node.name change
    (⟨items⟩, decide (0 < items.length))

/-- `NodeMap`: a Go `map[types.NodeName]Node` as an association list. -/
abbrev NodeMap := List (NodeName × Node)

def lookupNode : NodeMap → NodeName → Option Node
  | [], _ => none
  | (k, v) :: rest, key => if k = key then some v else lookupNode rest key

def mapDelete : NodeMap → NodeName → NodeMap
  | [], _ => []
  | (k, v) :: rest, key =>
    if k = key then mapDelete rest key else (k, v) :: mapDelete rest key

def mapInsert (m : NodeMap) (key : NodeName) (v : Node) : NodeMap :=
  (key, v) :: mapDelete m key

/-- `NodeMap.add`. -/
def NodeMap.add (em : NodeMap) (other : Option Node) : NodeMap :=
  match other with
  | none => em
  | some n => mapInsert em n.name n

/-- `NodeMap.remove`. -/
def NodeMap.remove (em : NodeMap) (other : Option Node) : NodeMap :=
  match other with
  | none => em
  | some n => mapDelete em n.name

/-- The loop body of `NodeMap.apply`: for each drained record, remove
the node associated with `previous`, then add `current`. -/
def NodeMap.applyChanges (em : NodeMap) : ChangeItems → NodeMap
  | [] => em
  | (_, change) :: rest =>
    NodeMap.applyChanges ((em.remove change.previous).add change.current) rest

/-- `NodeMap.apply`: drains every pending record into the map and resets
the tracker's items to an empty map. -/
def NodeMap.apply (em : NodeMap) (changes : NodeChangeTracker) :
    NodeMap × NodeChangeTracker :=
  (NodeMap.applyChanges em changes.items, ⟨[]⟩)

/-- `UpdateNodeMap`. -/
def UpdateNodeMap (nodeMap : NodeMap) (changes : NodeChangeTracker) :
    NodeMap × NodeChangeTracker :=
  nodeMap.apply changes

/-- `BaseEndpointInfo`: the fields of an endpoint that the topology
filter reads — the endpoint string and the owning node's name ("" when
unknown). -/
structure Endpoint where
  endpoint : String
  nodeName : NodeName
deriving DecidableEq

/-- The body of the inner candidate scan of `FilterTopologyEndpoint`: an
endpoint is kept for topology value `topologyValue` of key `key` when
its owning node is set, known to the map, and carries the same value for
that key. -/
def epMatches (nodeMap : NodeMap) (key topologyValue : String) (ep : Endpoint) : Bool :=
  if ep.nodeName = "" then false
  else
    match lookupNode nodeMap ep.nodeName with
    | none => false
    | some node =>
      match node.getTopologyValue key with
      | none => false
      | some value => value == topologyValue

/-- The key loop of `FilterTopologyEndpoint`, carrying the
`filteredEndpoint` accumulator: an empty key returns the full candidate
list; a key the current node lacks is skipped; otherwise the matches of
the candidate scan are appended and the loop stops as soon as the
accumulator is non-empty. -/
def filterLoop (nodeMap : NodeMap) (endpoints : List Endpoint) (currentNode : Node)
    (acc : List Endpoint) : List String → List Endpoint
  | [] => acc
  | key :: rest =>
    if key = "" then endpoints
    else
      match currentNode.getTopologyValue key with
      | none => filterLoop nodeMap endpoints currentNode acc rest
      | some topologyValue =>
        let acc' := acc ++ endpoints.filter (epMatches nodeMap key topologyValue)
        if 0 < acc'.length then acc'
        else filterLoop nodeMap endpoints currentNode acc' rest

/-- `FilterTopologyEndpoint`. -/
def FilterTopologyEndpoint (currentNodeName : NodeName) (nodeMap : NodeMap)
    (topologyKeys : List String) (endpoints : List Endpoint) : List Endpoint :=
  if topologyKeys.length = 0 then endpoints
  else
    match lookupNode nodeMap currentNodeName with
    | none => endpoints
    | some currentNode => filterLoop nodeMap endpoints currentNode [] topologyKeys

/-- Spec-side match predicate, written from the spec's words: an
endpoint matches a key when its owning node is known and its value for
that key equals the current node's value for that key. -/
def specMatchesKey (nodeMap : NodeMap) (currentNode : Node) (key : String)
    (ep : Endpoint) : Bool :=
  match currentNode.getTopologyValue key with
  | none => false
  | some topologyValue =>
    if ep.nodeName = "" then false
    else
      match lookupNode nodeMap ep.nodeName with
      | none => false
      | some node => node.getTopologyValue key == some topologyValue

/-- Spec-side scan, written from the spec's words: keys are scanned in
priority order; the empty key returns the full candidate list; the first
key with at least one match returns exactly its matches; if no key
matches anything the result is empty. -/
def specFirstMatch (nodeMap : NodeMap) (currentNode : Node) (endpoints : List Endpoint) :
    List String → List Endpoint
  | [] => []
  | key :: rest =>
    if key = "" then endpoints
    else
      let ms := endpoints.filter (specMatchesKey nodeMap currentNode key)
      if ms.isEmpty then specFirstMatch nodeMap currentNode endpoints rest else ms

/-- One store call of the reconciler. -/
inductive IPSetOp where
  | del (entry : String)
  | add (entry : String)
deriving DecidableEq

/-- `sets.String.Insert`: adding a member to a Go string set. -/
def setInsert (s : List String) (e : String) : List String :=
  if e ∈ s then s else s ++ [e]

/-- The member list of the Go string set built by inserting every
element of `l` (duplicates collapse). -/
def stringSetOf : List String → List String
  | [] => []
  | x :: rest => setInsert (stringSetOf rest) x

/-- `sets.String.Equal`: two sets hold the same members. -/
def setEqual (a b : List String) : Bool :=
  a.all (fun e => decide (e ∈ b)) && b.all (fun e => decide (e ∈ a))

def insertSorted (x : String) : List String → List String
  | [] => [x]
  | y :: rest => if x ≤ y then x :: y :: rest else y :: insertSorted x rest

/-- `sets.String.List`: the members in sorted order. -/
def sortStrings : List String → List String
  | [] => []
  | x :: rest => insertSorted x (sortStrings rest)

/-- `IPSet.syncIPSetEntries`, as the list of store calls it issues.
`listResult` is what `handle.ListEntries` returned (`none` on error, in
which case the function logs and returns without issuing any call).
Otherwise, when the active (desired) set differs from the live one, it
issues one `DelEntry` per member of live − desired, then one `AddEntry`
per member of desired − live, each diff listed in sorted order. -/
def syncIPSetEntries (activeEntries : List String) (listResult : Option (List String)) :
    List IPSetOp :=
  match listResult with
  | none => []
  | some appliedEntries =>
    let currentIPSetEntries := stringSetOf appliedEntries
    let active := stringSetOf activeEntries
    if setEqual active currentIPSetEntries then []
    else
      (sortStrings (currentIPSetEntries.filter (fun e => decide (e ∉ active)))).map IPSetOp.del
        ++ (sortStrings (active.filter (fun e => decide (e ∉ currentIPSetEntries)))).map IPSetOp.add

/-- The call loop of `syncIPSetEntries` run against a store in which
`fail` says which calls return an error: a failed call is logged and the
loop continues with the remaining calls. -/
def runSyncCalls (fail : IPSetOp → Bool) : List IPSetOp → List (IPSetOp × Bool)
  | [] => []
  | op :: rest => (op, fail op) :: runSyncCalls fail rest

/-- One whole `syncIPSetEntries` pass against a store with failure
pattern `fail`: the pair records each issued call and whether it
failed. -/
def runSync (activeEntries : List String) (listResult : Option (List String))
    (fail : IPSetOp → Bool) : List (IPSetOp × Bool) :=
  runSyncCalls fail (syncIPSetEntries activeEntries listResult)

/-- What `handle.ListEntries` hands back: the entry slice and the error
value. -/
structure ListEntriesResult where
  entries : List String
  err : Option String
deriving DecidableEq

/-- `IPSet.isEmpty`: discards the error of `ListEntries` and reports
whether the returned slice is empty. -/
def IPSet.isEmpty (handle : String → ListEntriesResult) (name : String) : Bool :=
  ((handle name).entries).length == 0

/-- A pending record is keyed consistently: its previous and current
snapshots, when present, carry the identity the record is stored
under.  This is how the tracker files records: the key is the name of
the delivered object. -/
def changeKeyed (p : NodeName × NodeChange) : Bool :=
  (p.2.previous.all fun n => n.name == p.1) && (p.2.current.all fun n => n.name == p.1)

/-- C9: `Update(nil, nil)` is a no-op: the pending map is unchanged, no
record is created, and the call returns `false`. -/
theorem update_nil_nil_noop (ect : NodeChangeTracker) :
    ect.Update none none = (ect, false) := rfl

/-- C8: applying an already-drained tracker leaves the node map
unchanged (and the tracker stays empty). -/
theorem apply_drained_tracker_noop (em : NodeMap) (t : NodeChangeTracker)
    (h : t.items = []) : em.apply t = (em, ⟨[]⟩) := by
  cases t with
  | mk items =>
    cases h
    rfl

theorem apply_drained_tracker_noop_witness :
    NodeMap.apply [("testNode1", ⟨"testNode1", [("zone", "a")]⟩)] ⟨[]⟩
      = ([("testNode1", ⟨"testNode1", [("zone", "a")]⟩)], ⟨[]⟩) :=
  apply_drained_tracker_noop _ _ rfl

/-- C10: `isEmpty` reports true exactly when the entry slice returned by
`ListEntries` is empty, whatever the error value is; replacing the error
by any failure leaves the verdict unchanged, so a set whose listing
fails (nil slice, non-nil error) is reported empty. -/
theorem isEmpty_ignores_list_error (handle : String → ListEntriesResult) (name : String) :
    (IPSet.isEmpty handle name = true ↔ (handle name).entries = [])
    ∧ (∀ e : String,
        IPSet.isEmpty (fun n => ⟨(handle n).entries, some e⟩) name
          = IPSet.isEmpty handle name) := by
  constructor
  · simp [IPSet.isEmpty, List.length_eq_zero]
  · intro e
    simp [IPSet.isEmpty]

theorem lookupChange_changeDelete (items : ChangeItems) (key k : NodeName) :
    lookupChange (changeDelete items key) k = if k = key then none else lookupChange items k := by
  induction items with
  | nil => by_cases h : k = key <;> simp [changeDelete, lookupChange, h]
  | cons hd tl ih =>
    obtain ⟨k1, c⟩ := hd
    by_cases h1 : k1 = key
    · rw [show changeDelete ((k1, c) :: tl) key = changeDelete tl key by
        simp [changeDelete, h1]]
      rw [ih]
      by_cases h2 : k = key
      · simp [h2]
      · have hk1 : ¬ k1 = k := fun h => h2 (h.symm.trans h1)
        simp [h2, lookupChange, hk1]
    · rw [show changeDelete ((k1, c) :: tl) key = (k1, c) :: changeDelete tl key by
        simp [changeDelete, h1]]
      by_cases h2 : k1 = k
      · have hk : ¬ k = key := fun h => h1 (h2.trans h)
        simp [lookupChange, h2, hk]
      · by_cases h3 : k = key
        · subst h3
          simp [lookupChange, h1, h2, ih]
        · simp [lookupChange, h1, h2, h3, ih]

theorem lookupChange_changeInsert (items : ChangeItems) (key k : NodeName) (c : NodeChange) :
    lookupChange (changeInsert items key c) k
      = if k = key then some c else lookupChange items k := by
  unfold changeInsert
  by_cases h : k = key
  · simp [lookupChange, h]
  · have h' : ¬ key = k := fun e => h e.symm
    simp [lookupChange, h', h, lookupChange_changeDelete]

/-- Unfolding of `Update` once the identity-carrying node is known. -/
theorem Update_eq (ect : NodeChangeTracker) (previous current : Option V1Node) (node : V1Node)
    (hnode : (match current with | some n => some n | none => previous) = some node) :
    ect.Update previous current =
      (let prevField :=
        match lookupChange ect.items node.name with
        | some change => change.previous
        | none => convertNode previous
      let change : NodeChange := ⟨prevField, convertNode current⟩
      let items :=
        if optNodeEqual change.previous change.current then
          changeDelete ect.items node.name
        else
          changeInsert ect.items node.name change
      (⟨items⟩, decide (0 < items.length))) := by
  unfold NodeChangeTracker.Update
  rw [hnode]

/-- C5: for a call carrying at least one side (`node` is the identity
carrier), a record created on first touch holds as `previous` the
converted snapshot supplied in that call; a surviving record's
`current` is always the latest converted snapshot; the call returns
`true` iff the pending map is non-empty afterwards; and on a fresh
tracker `Update(n0, n1)` then `Update(n1, n2)` leaves the record
`(previous = n0, current = n2)`. -/
theorem update_first_previous (ect : NodeChangeTracker) (previous current : Option V1Node)
    (node : V1Node)
    (hnode : (match current with | some n => some n | none => previous) = some node) :
    ((lookupChange ect.items node.name = none →
        optNodeEqual (convertNode previous) (convertNode current) = false →
        lookupChange (ect.Update previous current).1.items node.name
          = some ⟨convertNode previous, convertNode current⟩)
      ∧ (∀ r, lookupChange (ect.Update previous current).1.items node.name = some r →
          r.current = convertNode current)
      ∧ ((ect.Update previous current).2 = true ↔ (ect.Update previous current).1.items ≠ []))
    ∧ (∀ n0 n1 n2 : V1Node, n0.name = n1.name → n1.name = n2.name →
        optNodeEqual (convertNode (some n0)) (convertNode (some n1)) = false →
        optNodeEqual (convertNode (some n0)) (convertNode (some n2)) = false →
        lookupChange
          ((((⟨[]⟩ : NodeChangeTracker).Update (some n0) (some n1)).1.Update
            (some n1) (some n2)).1.items) n2.name
          = some ⟨convertNode (some n0), convertNode (some n2)⟩) := by
  rw [Update_eq ect previous current node hnode]
  refine ⟨⟨?_, ?_, ?_⟩, ?_⟩
  · intro hnone hne
    simp [hnone, hne, lookupChange_changeInsert]
  · intro r hr
    dsimp only at hr
    repeat split at hr
    all_goals
      first
      | (rw [lookupChange_changeDelete] at hr
         simp at hr)
      | (rw [lookupChange_changeInsert] at hr
         rw [if_pos rfl] at hr
         injection hr with h
         rw [← h])
  · simp [List.length_pos]
  · intro n0 n1 n2 h01 h12 hne01 hne02
    have h1 : ((⟨[]⟩ : NodeChangeTracker).Update (some n0) (some n1))
        = (⟨[(n1.name, ⟨convertNode (some n0), convertNode (some n1)⟩)]⟩, true) := by
      rw [Update_eq _ _ _ n1 rfl]
      simp [lookupChange, hne01, changeInsert, changeDelete]
    rw [h1]
    rw [Update_eq _ _ _ n2 rfl]
    have hl : lookupChange [(n1.name, ⟨convertNode (some n0), convertNode (some n1)⟩)] n2.name
        = some ⟨convertNode (some n0), convertNode (some n1)⟩ := by
      simp [lookupChange, h12]
    simp [hl, hne02, lookupChange_changeInsert]

theorem update_first_previous_witness :
    (lookupChange ((⟨[]⟩ : NodeChangeTracker).Update (some ⟨"testNode1", []⟩)
        (some ⟨"testNode1", [("zone", "a")]⟩)).1.items "testNode1"
      = some ⟨some ⟨"testNode1", []⟩, some ⟨"testNode1", [("zone", "a")]⟩⟩)
    ∧ (((⟨[]⟩ : NodeChangeTracker).Update (some ⟨"testNode1", []⟩)
        (some ⟨"testNode1", [("zone", "a")]⟩)).2 = true
      ↔ ((⟨[]⟩ : NodeChangeTracker).Update (some ⟨"testNode1", []⟩)
        (some ⟨"testNode1", [("zone", "a")]⟩)).1.items ≠ [])
    ∧ lookupChange ((((⟨[]⟩ : NodeChangeTracker).Update (some ⟨"testNode1", []⟩)
          (some ⟨"testNode1", [("zone", "a")]⟩)).1.Update
          (some ⟨"testNode1", [("zone", "a")]⟩)
          (some ⟨"testNode1", [("zone", "b")]⟩)).1.items) "testNode1"
      = some ⟨some ⟨"testNode1", []⟩, some ⟨"testNode1", [("zone", "b")]⟩⟩ := by
  have h := update_first_previous (⟨[]⟩ : NodeChangeTracker) (some ⟨"testNode1", []⟩)
    (some ⟨"testNode1", [("zone", "a")]⟩) ⟨"testNode1", [("zone", "a")]⟩ rfl
  refine ⟨h.1.1 (by decide) (by decide), h.1.2.2, ?_⟩
  exact h.2 ⟨"testNode1", []⟩ ⟨"testNode1", [("zone", "a")]⟩ ⟨"testNode1", [("zone", "b")]⟩
    rfl rfl (by decide) (by decide)

/-- C4 counterexample: on a tracker already holding a pending record for
"testNode1" (previous labels `zone=a`, current labels `zone=b`), calling
`Update(n, n')` where `n' = n` (identical identity and labels, `zone=b`)
leaves the record pending — the claim that such a call never leaves a
pending record for the identity is false. -/
theorem update_identical_leaves_pending :
    lookupChange
      ((((⟨[]⟩ : NodeChangeTracker).Update
          (some ⟨"testNode1", [("zone", "a")]⟩)
          (some ⟨"testNode1", [("zone", "b")]⟩)).1.Update
        (some ⟨"testNode1", [("zone", "b")]⟩)
        (some ⟨"testNode1", [("zone", "b")]⟩)).1.items)
      "testNode1"
      = some ⟨some ⟨"testNode1", [("zone", "a")]⟩, some ⟨"testNode1", [("zone", "b")]⟩⟩ := by
  decide

/-- C4 (amended): `Update(n, n')` with identical identity and deep-equal
snapshots never creates a pending record where none existed, and an
existing record is deleted whenever its accumulated `previous` snapshot
deep-equals the new `current` snapshot; but an existing record whose
accumulated `previous` differs from the new `current` stays pending
even when `n'` equals `n`. -/
theorem update_collapse_deletes_record (ect : NodeChangeTracker)
    (previous current : Option V1Node) (node : V1Node)
    (hnode : (match current with | some n => some n | none => previous) = some node) :
    (lookupChange ect.items node.name = none →
      optNodeEqual (convertNode previous) (convertNode current) = true →
      lookupChange (ect.Update previous current).1.items node.name = none)
    ∧ (∀ r, lookupChange ect.items node.name = some r →
        optNodeEqual r.previous (convertNode current) = true →
        lookupChange (ect.Update previous current).1.items node.name = none) := by
  rw [Update_eq ect previous current node hnode]
  constructor
  · intro hnone hEq
    simp [hnone, hEq, lookupChange_changeDelete]
  · intro r hr hEq
    simp [hr, hEq, lookupChange_changeDelete]

theorem update_collapse_deletes_record_witness :
    lookupChange ((⟨[]⟩ : NodeChangeTracker).Update
        (some ⟨"testNode1", [("zone", "a")]⟩)
        (some ⟨"testNode1", [("zone", "a")]⟩)).1.items "testNode1" = none
    ∧ lookupChange
        ((⟨[("testNode1",
            ⟨some ⟨"testNode1", [("zone", "b")]⟩,
              some ⟨"testNode1", [("zone", "a")]⟩⟩)]⟩ : NodeChangeTracker).Update
          (some ⟨"testNode1", [("zone", "a")]⟩)
          (some ⟨"testNode1", [("zone", "b")]⟩)).1.items "testNode1" = none := by
  refine ⟨(update_collapse_deletes_record _ _ _ ⟨"testNode1", [("zone", "a")]⟩ rfl).1
      (by decide) (by decide),
    (update_collapse_deletes_record _ _ _ ⟨"testNode1", [("zone", "b")]⟩ rfl).2
      ⟨some ⟨"testNode1", [("zone", "b")]⟩, some ⟨"testNode1", [("zone", "a")]⟩⟩
      (by decide) (by decide)⟩

theorem lookupNode_mapDelete (m : NodeMap) (key k : NodeName) :
    lookupNode (mapDelete m key) k = if k = key then none else lookupNode m k := by
  induction m with
  | nil => by_cases h : k = key <;> simp [mapDelete, lookupNode, h]
  | cons hd tl ih =>
    obtain ⟨k1, v⟩ := hd
    by_cases h1 : k1 = key
    · rw [show mapDelete ((k1, v) :: tl) key = mapDelete tl key by simp [mapDelete, h1]]
      rw [ih]
      by_cases h2 : k = key
      · simp [h2]
      · have hk1 : ¬ k1 = k := fun h => h2 (h.symm.trans h1)
        simp [h2, lookupNode, hk1]
    · rw [show mapDelete ((k1, v) :: tl) key = (k1, v) :: mapDelete tl key by
        simp [mapDelete, h1]]
      by_cases h2 : k1 = k
      · have hk : ¬ k = key := fun h => h1 (h2.trans h)
        simp [lookupNode, h2, hk]
      · by_cases h3 : k = key
        · subst h3
          simp [lookupNode, h1, h2, ih]
        · simp [lookupNode, h1, h2, h3, ih]

theorem lookupNode_mapInsert (m : NodeMap) (key k : NodeName) (v : Node) :
    lookupNode (mapInsert m key v) k = if k = key then some v else lookupNode m k := by
  unfold mapInsert
  by_cases h : k = key
  · simp [lookupNode, h]
  · have h' : ¬ key = k := fun e => h e.symm
    simp [lookupNode, h', h, lookupNode_mapDelete]

theorem lookupChange_eq_none_iff (items : ChangeItems) (k : NodeName) :
    lookupChange items k = none ↔ ∀ p ∈ items, p.1 ≠ k := by
  induction items with
  | nil => simp [lookupChange]
  | cons hd tl ih =>
    obtain ⟨k1, c⟩ := hd
    by_cases h : k1 = k
    · simp [lookupChange, h]
    · simp [lookupChange, h, ih]

/-- One step of the drain loop does not touch a key none of the record's
identities name. -/
theorem applyChange_lookup_other (em : NodeMap) (k1 : NodeName) (c : NodeChange)
    (k : NodeName) (hkey : changeKeyed (k1, c) = true) (hne : k1 ≠ k) :
    lookupNode ((em.remove c.previous).add c.current) k = lookupNode em k := by
  unfold changeKeyed at hkey
  simp only [Bool.and_eq_true] at hkey
  obtain ⟨hp, hc⟩ := hkey
  have hremove : lookupNode (em.remove c.previous) k = lookupNode em k := by
    cases hcp : c.previous with
    | none => simp [NodeMap.remove]
    | some n =>
      have hn : n.name = k1 := by
        rw [hcp] at hp
        simpa using hp
      rw [NodeMap.remove, lookupNode_mapDelete, if_neg (fun h => hne (hn.symm.trans h.symm))]
  cases hcc : c.current with
  | none => simp [NodeMap.add, hremove]
  | some n =>
    have hn : n.name = k1 := by
      rw [hcc] at hc
      simpa using hc
    rw [NodeMap.add, lookupNode_mapInsert, if_neg (fun h => hne (hn.symm.trans h.symm)), hremove]

/-- The drain loop leaves every key untouched that no record is keyed
under. -/
theorem applyChanges_lookup_frame (items : ChangeItems) (em : NodeMap) (k : NodeName)
    (hkeyed : ∀ p ∈ items, changeKeyed p = true)
    (hk : ∀ p ∈ items, p.1 ≠ k) :
    lookupNode (NodeMap.applyChanges em items) k = lookupNode em k := by
  induction items generalizing em with
  | nil => rfl
  | cons hd tl ih =>
    obtain ⟨k1, c⟩ := hd
    rw [show NodeMap.applyChanges em ((k1, c) :: tl)
        = NodeMap.applyChanges ((em.remove c.previous).add c.current) tl from rfl]
    rw [ih _ (fun p hp => hkeyed p (List.mem_cons_of_mem _ hp))
      (fun p hp => hk p (List.mem_cons_of_mem _ hp))]
    exact applyChange_lookup_other em k1 c k (hkeyed _ (List.mem_cons_self _ _))
      (hk _ (List.mem_cons_self _ _))

/-- After the drain, the key of a pending record maps to that record's
`current` snapshot (removed when `current` is absent). -/
theorem applyChanges_lookup_record (items : ChangeItems) (em : NodeMap) (k : NodeName)
    (c : NodeChange)
    (hkeyed : ∀ p ∈ items, changeKeyed p = true)
    (hnodup : (items.map Prod.fst).Nodup)
    (hinv : ∀ p ∈ items, p.2.previous ≠ none ∨ p.2.current ≠ none)
    (h : lookupChange items k = some c) :
    lookupNode (NodeMap.applyChanges em items) k = c.current := by
  induction items generalizing em with
  | nil => simp [lookupChange] at h
  | cons hd tl ih =>
    obtain ⟨k1, c1⟩ := hd
    rw [show NodeMap.applyChanges em ((k1, c1) :: tl)
        = NodeMap.applyChanges ((em.remove c1.previous).add c1.current) tl from rfl]
    by_cases h1 : k1 = k
    · have hc : c = c1 := by
        rw [lookupChange, if_pos h1] at h
        exact (Option.some.inj h).symm
      subst hc
      have htl : ∀ p ∈ tl, p.1 ≠ k := by
        intro p hp he
        simp only [List.map_cons, List.nodup_cons] at hnodup
        apply hnodup.1
        have hmem : p.1 ∈ tl.map Prod.fst := List.mem_map_of_mem Prod.fst hp
        rw [he] at hmem
        rw [h1]
        exact hmem
      rw [applyChanges_lookup_frame tl _ k
        (fun p hp => hkeyed p (List.mem_cons_of_mem _ hp)) htl]
      have hkey : changeKeyed (k1, c) = true := hkeyed _ (List.mem_cons_self _ _)
      unfold changeKeyed at hkey
      simp only [Bool.and_eq_true] at hkey
      obtain ⟨hpa, hca⟩ := hkey
      have hprev : c.previous ≠ none ∨ c.current ≠ none :=
        hinv _ (List.mem_cons_self _ _)
      cases hcc : c.current with
      | some n =>
        have hn : n.name = k1 := by
          rw [hcc] at hca
          simpa using hca
        simp only [NodeMap.add]
        rw [lookupNode_mapInsert, if_pos (hn.trans h1).symm]
      | none =>
        cases hcp : c.previous with
        | none =>
          rw [hcp, hcc] at hprev
          simp at hprev
        | some n =>
          have hn : n.name = k1 := by
            rw [hcp] at hpa
            simpa using hpa
          simp only [NodeMap.add, NodeMap.remove]
          rw [lookupNode_mapDelete, if_pos (hn.trans h1).symm]
    · rw [lookupChange, if_neg h1] at h
      refine ih _ (fun p hp => hkeyed p (List.mem_cons_of_mem _ hp)) ?_
        (fun p hp => hinv p (List.mem_cons_of_mem _ hp)) h
      simp only [List.map_cons, List.nodup_cons] at hnodup
      exact hnodup.2

/-- C2: when every pending record is keyed by the identity its
snapshots carry and record keys are distinct (as the tracker files
them), `apply` leaves every identity without a pending record unchanged,
maps each identity with a pending record to that record's `current`
snapshot (removing the entry when `current` is absent, after removing
`previous`), and resets the tracker's pending map to empty. -/
theorem apply_affects_exactly_pending (em : NodeMap) (t : NodeChangeTracker)
    (hkeyed : ∀ p ∈ t.items, changeKeyed p = true)
    (hnodup : (t.items.map Prod.fst).Nodup)
    (hinv : ∀ p ∈ t.items, p.2.previous ≠ none ∨ p.2.current ≠ none)
    (_hpending : t.items ≠ []) :
    (∀ k, lookupChange t.items k = none →
        lookupNode (em.apply t).1 k = lookupNode em k)
    ∧ (∀ k c, lookupChange t.items k = some c →
        lookupNode (em.apply t).1 k = c.current)
    ∧ (em.apply t).2 = ⟨[]⟩ := by
  refine ⟨?_, ?_, rfl⟩
  · intro k hk
    exact applyChanges_lookup_frame t.items em k hkeyed
      ((lookupChange_eq_none_iff t.items k).mp hk)
  · intro k c hc
    exact applyChanges_lookup_record t.items em k c hkeyed hnodup hinv hc

theorem apply_affects_exactly_pending_witness :
    (lookupNode (NodeMap.apply
        [("testNode1", ⟨"testNode1", []⟩), ("testNode3", ⟨"testNode3", []⟩)]
        ⟨[("testNode1", ⟨some ⟨"testNode1", []⟩, some ⟨"testNode1", [("region", "bj")]⟩⟩),
          ("testNode2", ⟨some ⟨"testNode2", []⟩, none⟩)]⟩).1 "testNode3"
      = lookupNode [("testNode1", ⟨"testNode1", []⟩), ("testNode3", ⟨"testNode3", []⟩)]
          "testNode3")
    ∧ (lookupNode (NodeMap.apply
        [("testNode1", ⟨"testNode1", []⟩), ("testNode3", ⟨"testNode3", []⟩)]
        ⟨[("testNode1", ⟨some ⟨"testNode1", []⟩, some ⟨"testNode1", [("region", "bj")]⟩⟩),
          ("testNode2", ⟨some ⟨"testNode2", []⟩, none⟩)]⟩).1 "testNode1"
      = some ⟨"testNode1", [("region", "bj")]⟩)
    ∧ (NodeMap.apply
        [("testNode1", ⟨"testNode1", []⟩), ("testNode3", ⟨"testNode3", []⟩)]
        ⟨[("testNode1", ⟨some ⟨"testNode1", []⟩, some ⟨"testNode1", [("region", "bj")]⟩⟩),
          ("testNode2", ⟨some ⟨"testNode2", []⟩, none⟩)]⟩).2 = ⟨[]⟩ := by
  have h := apply_affects_exactly_pending
    [("testNode1", ⟨"testNode1", []⟩), ("testNode3", ⟨"testNode3", []⟩)]
    ⟨[("testNode1", ⟨some ⟨"testNode1", []⟩, some ⟨"testNode1", [("region", "bj")]⟩⟩),
      ("testNode2", ⟨some ⟨"testNode2", []⟩, none⟩)]⟩
    (by decide) (by decide) (by decide) (by decide)
  exact ⟨h.1 "testNode3" (by decide),
    h.2.1 "testNode1" ⟨some ⟨"testNode1", []⟩, some ⟨"testNode1", [("region", "bj")]⟩⟩
      (by decide),
    h.2.2⟩

/-- When the current node carries `topologyValue` for `key`, the code's
candidate predicate agrees with the spec's. -/
theorem epMatches_eq_specMatchesKey (nodeMap : NodeMap) (currentNode : Node)
    (key topologyValue : String)
    (h : currentNode.getTopologyValue key = some topologyValue) (ep : Endpoint) :
    epMatches nodeMap key topologyValue ep = specMatchesKey nodeMap currentNode key ep := by
  unfold epMatches specMatchesKey
  rw [h]
  by_cases h1 : ep.nodeName = ""
  · simp [h1]
  · simp only [h1, if_false]
    cases lookupNode nodeMap ep.nodeName with
    | none => rfl
    | some node =>
      cases hgv : node.getTopologyValue key <;> simp [hgv]

/-- The key loop starting from an empty accumulator computes the
spec-side first-match scan. -/
theorem filterLoop_eq_specFirstMatch (nodeMap : NodeMap) (currentNode : Node)
    (endpoints : List Endpoint) (keys : List String) :
    filterLoop nodeMap endpoints currentNode [] keys
      = specFirstMatch nodeMap currentNode endpoints keys := by
  induction keys with
  | nil => rfl
  | cons key rest ih =>
    unfold filterLoop specFirstMatch
    by_cases hkey : key = ""
    · simp [hkey]
    · simp only [hkey, if_false]
      cases hv : currentNode.getTopologyValue key with
      | none =>
        have hms : endpoints.filter (specMatchesKey nodeMap currentNode key) = [] := by
          rw [List.filter_eq_nil_iff]
          intro ep _
          unfold specMatchesKey
          rw [hv]
          simp
        rw [hms]
        simpa using ih
      | some topologyValue =>
        have hf : endpoints.filter (epMatches nodeMap key topologyValue)
            = endpoints.filter (specMatchesKey nodeMap currentNode key) :=
          List.filter_congr
            (fun ep _ => epMatches_eq_specMatchesKey nodeMap currentNode key topologyValue hv ep)
        simp only [List.nil_append]
        rw [hf]
        by_cases hlen : 0 < (endpoints.filter (specMatchesKey nodeMap currentNode key)).length
        · have hne : ¬ (endpoints.filter (specMatchesKey nodeMap currentNode key)).isEmpty = true := by
            cases hE : endpoints.filter (specMatchesKey nodeMap currentNode key) with
            | nil => rw [hE] at hlen; simp at hlen
            | cons a l => simp [List.isEmpty]
          simp [hlen, hne]
        · have hnil : endpoints.filter (specMatchesKey nodeMap currentNode key) = [] := by
            cases hE : endpoints.filter (specMatchesKey nodeMap currentNode key) with
            | nil => rfl
            | cons a l => rw [hE] at hlen; simp at hlen
          rw [hnil]
          simpa using ih

/-- Spec-side: if every non-wildcard key matches nothing and the
wildcard is only present when there are no candidates, the scan yields
the empty list. -/
theorem specFirstMatch_eq_nil (nodeMap : NodeMap) (currentNode : Node)
    (endpoints : List Endpoint) (keys : List String)
    (hall : ∀ k ∈ keys, k ≠ "" → endpoints.filter (specMatchesKey nodeMap currentNode k) = [])
    (hwild : "" ∈ keys → endpoints = []) :
    specFirstMatch nodeMap currentNode endpoints keys = [] := by
  induction keys with
  | nil => rfl
  | cons key rest ih =>
    unfold specFirstMatch
    by_cases hkey : key = ""
    · rw [if_pos hkey]
      exact hwild (by rw [hkey]; exact List.mem_cons_self _ _)
    · rw [if_neg hkey, hall key (List.mem_cons_self _ _) hkey]
      simpa using ih (fun k hk hne => hall k (List.mem_cons_of_mem _ hk) hne)
        (fun hw => hwild (List.mem_cons_of_mem _ hw))

/-- Spec-side: when the scan reaches the wildcard (every earlier key
matched nothing), the full candidate list is returned. -/
theorem specFirstMatch_wildcard (nodeMap : NodeMap) (currentNode : Node)
    (endpoints : List Endpoint) (pre post : List String)
    (hpre : ∀ k ∈ pre, endpoints.filter (specMatchesKey nodeMap currentNode k) = []) :
    specFirstMatch nodeMap currentNode endpoints (pre ++ "" :: post) = endpoints := by
  induction pre with
  | nil =>
    unfold specFirstMatch
    simp
  | cons key pre' ih =>
    rw [List.cons_append]
    unfold specFirstMatch
    by_cases hkey : key = ""
    · rw [if_pos hkey]
    · rw [if_neg hkey, hpre key (List.mem_cons_self _ _)]
      simpa using ih (fun k hk => hpre k (List.mem_cons_of_mem _ hk))

/-- C1: once the scan actually runs (keys non-empty, current node known
to the map), `FilterTopologyEndpoint` equals the spec-side priority
scan — the first key with at least one match contributes exactly its
matches in candidate order and later keys contribute nothing — and when
no key (wildcard included) matches any candidate the result is the
empty list, not the input. -/
theorem filter_first_match (currentNodeName : NodeName) (nodeMap : NodeMap)
    (keys : List String) (endpoints : List Endpoint) (currentNode : Node)
    (hkeys : keys ≠ [])
    (hcn : lookupNode nodeMap currentNodeName = some currentNode) :
    FilterTopologyEndpoint currentNodeName nodeMap keys endpoints
      = specFirstMatch nodeMap currentNode endpoints keys
    ∧ ((∀ k ∈ keys, k ≠ "" →
          endpoints.filter (specMatchesKey nodeMap currentNode k) = []) →
        ("" ∈ keys → endpoints = []) →
        FilterTopologyEndpoint currentNodeName nodeMap keys endpoints = []) := by
  have hlen : ¬ keys.length = 0 := by
    simpa using hkeys
  have heq : FilterTopologyEndpoint currentNodeName nodeMap keys endpoints
      = specFirstMatch nodeMap currentNode endpoints keys := by
    unfold FilterTopologyEndpoint
    rw [if_neg hlen, hcn]
    exact filterLoop_eq_specFirstMatch nodeMap currentNode endpoints keys
  refine ⟨heq, ?_⟩
  intro hall hwild
  rw [heq]
  exact specFirstMatch_eq_nil nodeMap currentNode endpoints keys hall hwild

theorem filter_first_match_witness :
    (FilterTopologyEndpoint "testNode3"
        [("testNode1", ⟨"testNode1", [("hostname", "10.0.0.1"), ("zone", "90001")]⟩),
          ("testNode2", ⟨"testNode2", [("hostname", "10.0.0.2"), ("zone", "90002")]⟩),
          ("testNode3", ⟨"testNode3", [("hostname", "10.0.0.3"), ("zone", "90001")]⟩)]
        ["hostname", "zone"]
        [⟨"1.1.1.1:11", "testNode1"⟩, ⟨"1.1.1.2:11", "testNode2"⟩]
      = specFirstMatch
          [("testNode1", ⟨"testNode1", [("hostname", "10.0.0.1"), ("zone", "90001")]⟩),
            ("testNode2", ⟨"testNode2", [("hostname", "10.0.0.2"), ("zone", "90002")]⟩),
            ("testNode3", ⟨"testNode3", [("hostname", "10.0.0.3"), ("zone", "90001")]⟩)]
          ⟨"testNode3", [("hostname", "10.0.0.3"), ("zone", "90001")]⟩
          [⟨"1.1.1.1:11", "testNode1"⟩, ⟨"1.1.1.2:11", "testNode2"⟩]
          ["hostname", "zone"])
    ∧ FilterTopologyEndpoint "testNode2"
        [("testNode1", ⟨"testNode1", [("hostname", "10.0.0.1"), ("zone", "90001")]⟩),
          ("testNode2", ⟨"testNode2", [("hostname", "10.0.0.2"), ("zone", "90002")]⟩),
          ("testNode3", ⟨"testNode3", [("hostname", "10.0.0.3"), ("zone", "90001")]⟩)]
        ["hostname", "zone"]
        [⟨"1.1.1.1:11", "testNode1"⟩, ⟨"1.1.1.3:11", "testNode3"⟩]
      = [] := by
  constructor
  · exact (filter_first_match "testNode3"
      [("testNode1", ⟨"testNode1", [("hostname", "10.0.0.1"), ("zone", "90001")]⟩),
        ("testNode2", ⟨"testNode2", [("hostname", "10.0.0.2"), ("zone", "90002")]⟩),
        ("testNode3", ⟨"testNode3", [("hostname", "10.0.0.3"), ("zone", "90001")]⟩)]
      ["hostname", "zone"]
      [⟨"1.1.1.1:11", "testNode1"⟩, ⟨"1.1.1.2:11", "testNode2"⟩]
      ⟨"testNode3", [("hostname", "10.0.0.3"), ("zone", "90001")]⟩
      (by decide) (by decide)).1
  · exact (filter_first_match "testNode2"
      [("testNode1", ⟨"testNode1", [("hostname", "10.0.0.1"), ("zone", "90001")]⟩),
        ("testNode2", ⟨"testNode2", [("hostname", "10.0.0.2"), ("zone", "90002")]⟩),
        ("testNode3", ⟨"testNode3", [("hostname", "10.0.0.3"), ("zone", "90001")]⟩)]
      ["hostname", "zone"]
      [⟨"1.1.1.1:11", "testNode1"⟩, ⟨"1.1.1.3:11", "testNode3"⟩]
      ⟨"testNode2", [("hostname", "10.0.0.2"), ("zone", "90002")]⟩
      (by decide) (by decide)).2 (by decide) (by decide)

/-- C6: `FilterTopologyEndpoint` returns the candidates unchanged when
the key list is empty, when the current node is absent from the map, and
when the priority scan reaches an empty-string key (every key before it
matched nothing): the wildcard immediately yields the full unfiltered
list. -/
theorem filter_passthrough_cases (currentNodeName : NodeName) (nodeMap : NodeMap)
    (keys : List String) (endpoints : List Endpoint) :
    (keys = [] →
      FilterTopologyEndpoint currentNodeName nodeMap keys endpoints = endpoints)
    ∧ (lookupNode nodeMap currentNodeName = none →
      FilterTopologyEndpoint currentNodeName nodeMap keys endpoints = endpoints)
    ∧ (∀ currentNode pre post,
        lookupNode nodeMap currentNodeName = some currentNode →
        keys = pre ++ "" :: post →
        (∀ k ∈ pre, endpoints.filter (specMatchesKey nodeMap currentNode k) = []) →
        FilterTopologyEndpoint currentNodeName nodeMap keys endpoints = endpoints) := by
  refine ⟨?_, ?_, ?_⟩
  · intro h
    subst h
    rfl
  · intro h
    unfold FilterTopologyEndpoint
    by_cases hlen : keys.length = 0
    · rw [if_pos hlen]
    · rw [if_neg hlen, h]
  · intro currentNode pre post hcn hk hpre
    subst hk
    have hlen : ¬ (pre ++ "" :: post).length = 0 := by
      simp
    unfold FilterTopologyEndpoint
    rw [if_neg hlen, hcn]
    exact (filterLoop_eq_specFirstMatch nodeMap currentNode endpoints (pre ++ "" :: post)).trans
      (specFirstMatch_wildcard nodeMap currentNode endpoints pre post hpre)

theorem filter_passthrough_cases_witness :
    (FilterTopologyEndpoint "testNode1"
        [("testNode1", ⟨"testNode1", [("zone", "90001")]⟩)] []
        [⟨"1.1.1.1:11", "testNode1"⟩]
      = [⟨"1.1.1.1:11", "testNode1"⟩])
    ∧ (FilterTopologyEndpoint "testNodeX"
        [("testNode1", ⟨"testNode1", [("zone", "90001")]⟩)] ["zone"]
        [⟨"1.1.1.1:11", "testNode1"⟩]
      = [⟨"1.1.1.1:11", "testNode1"⟩])
    ∧ (FilterTopologyEndpoint "testNode2"
        [("testNode1", ⟨"testNode1", [("zone", "90001")]⟩),
          ("testNode2", ⟨"testNode2", [("zone", "90002")]⟩)]
        ["zone", ""]
        [⟨"1.1.1.1:11", "testNode1"⟩]
      = [⟨"1.1.1.1:11", "testNode1"⟩]) := by
  refine ⟨?_, ?_, ?_⟩
  · exact (filter_passthrough_cases "testNode1"
      [("testNode1", ⟨"testNode1", [("zone", "90001")]⟩)] []
      [⟨"1.1.1.1:11", "testNode1"⟩]).1 rfl
  · exact (filter_passthrough_cases "testNodeX"
      [("testNode1", ⟨"testNode1", [("zone", "90001")]⟩)] ["zone"]
      [⟨"1.1.1.1:11", "testNode1"⟩]).2.1 (by decide)
  · exact (filter_passthrough_cases "testNode2"
      [("testNode1", ⟨"testNode1", [("zone", "90001")]⟩),
        ("testNode2", ⟨"testNode2", [("zone", "90002")]⟩)]
      ["zone", ""]
      [⟨"1.1.1.1:11", "testNode1"⟩]).2.2
      ⟨"testNode2", [("zone", "90002")]⟩ ["zone"] [] (by decide) rfl (by decide)

theorem insertSorted_perm (x : String) (l : List String) :
    (insertSorted x l).Perm (x :: l) := by
  induction l with
  | nil => exact List.Perm.refl _
  | cons y rest ih =>
    unfold insertSorted
    by_cases h : x ≤ y
    · rw [if_pos h]
    · rw [if_neg h]
      exact (List.Perm.cons y ih).trans (List.Perm.swap x y rest)

theorem sortStrings_perm (l : List String) : (sortStrings l).Perm l := by
  induction l with
  | nil => exact List.Perm.refl _
  | cons x rest ih =>
    exact (insertSorted_perm x (sortStrings rest)).trans (List.Perm.cons x ih)

theorem mem_setInsert (s : List String) (x e : String) :
    e ∈ setInsert s x ↔ e ∈ s ∨ e = x := by
  unfold setInsert
  by_cases h : x ∈ s
  · rw [if_pos h]
    constructor
    · exact Or.inl
    · rintro (he | he)
      · exact he
      · exact he ▸ h
  · rw [if_neg h]
    simp [List.mem_append]

theorem nodup_setInsert (s : List String) (x : String) (h : s.Nodup) :
    (setInsert s x).Nodup := by
  unfold setInsert
  by_cases hx : x ∈ s
  · rw [if_pos hx]
    exact h
  · rw [if_neg hx]
    refine List.Nodup.append h (List.nodup_singleton x) ?_
    intro a ha hb
    rw [List.mem_singleton] at hb
    subst hb
    exact hx ha

theorem mem_stringSetOf (l : List String) (e : String) :
    e ∈ stringSetOf l ↔ e ∈ l := by
  induction l with
  | nil => simp [stringSetOf]
  | cons x rest ih =>
    rw [show stringSetOf (x :: rest) = setInsert (stringSetOf rest) x from rfl,
      mem_setInsert, ih, List.mem_cons]
    exact or_comm

theorem nodup_stringSetOf (l : List String) : (stringSetOf l).Nodup := by
  induction l with
  | nil => exact List.nodup_nil
  | cons x rest ih => exact nodup_setInsert _ _ ih

theorem setEqual_iff (a b : List String) :
    setEqual a b = true ↔ (∀ e ∈ a, e ∈ b) ∧ (∀ e ∈ b, e ∈ a) := by
  unfold setEqual
  simp

theorem count_del_map_del (l : List String) (e : String) :
    (l.map IPSetOp.del).count (IPSetOp.del e) = l.count e :=
  List.count_map_of_injective l IPSetOp.del (fun a b h => by injection h) e

theorem count_add_map_add (l : List String) (e : String) :
    (l.map IPSetOp.add).count (IPSetOp.add e) = l.count e :=
  List.count_map_of_injective l IPSetOp.add (fun a b h => by injection h) e

theorem count_del_map_add (l : List String) (e : String) :
    (l.map IPSetOp.add).count (IPSetOp.del e) = 0 := by
  rw [List.count_eq_zero]
  intro h
  obtain ⟨a, _, ha⟩ := List.mem_map.mp h
  exact IPSetOp.noConfusion ha

theorem count_add_map_del (l : List String) (e : String) :
    (l.map IPSetOp.del).count (IPSetOp.add e) = 0 := by
  rw [List.count_eq_zero]
  intro h
  obtain ⟨a, _, ha⟩ := List.mem_map.mp h
  exact IPSetOp.noConfusion ha

theorem syncIPSetEntries_some (activeEntries appliedEntries : List String) :
    syncIPSetEntries activeEntries (some appliedEntries)
      = if setEqual (stringSetOf activeEntries) (stringSetOf appliedEntries) then []
        else
          (sortStrings ((stringSetOf appliedEntries).filter
              (fun e => decide (e ∉ stringSetOf activeEntries)))).map IPSetOp.del
            ++ (sortStrings ((stringSetOf activeEntries).filter
              (fun e => decide (e ∉ stringSetOf appliedEntries)))).map IPSetOp.add := rfl

/-- C3: on a successful listing, the sync pass issues exactly one
`DelEntry` per entry of live − desired and exactly one `AddEntry` per
entry of desired − live, all deletions before all additions, and no
call at all for an entry in both sets. -/
theorem sync_minimal_diff (activeEntries liveEntries : List String) :
    (∀ e, e ∈ activeEntries → e ∈ liveEntries →
        (syncIPSetEntries activeEntries (some liveEntries)).count (IPSetOp.del e) = 0
        ∧ (syncIPSetEntries activeEntries (some liveEntries)).count (IPSetOp.add e) = 0)
    ∧ (∀ e, e ∈ liveEntries → e ∉ activeEntries →
        (syncIPSetEntries activeEntries (some liveEntries)).count (IPSetOp.del e) = 1
        ∧ (syncIPSetEntries activeEntries (some liveEntries)).count (IPSetOp.add e) = 0)
    ∧ (∀ e, e ∈ activeEntries → e ∉ liveEntries →
        (syncIPSetEntries activeEntries (some liveEntries)).count (IPSetOp.add e) = 1
        ∧ (syncIPSetEntries activeEntries (some liveEntries)).count (IPSetOp.del e) = 0)
    ∧ (∃ dels adds : List String, syncIPSetEntries activeEntries (some liveEntries)
        = dels.map IPSetOp.del ++ adds.map IPSetOp.add) := by
  rw [syncIPSetEntries_some]
  by_cases hEq : setEqual (stringSetOf activeEntries) (stringSetOf liveEntries) = true
  · rw [if_pos hEq]
    obtain ⟨hab, hba⟩ := (setEqual_iff _ _).mp hEq
    refine ⟨fun e _ _ => ⟨rfl, rfl⟩, ?_, ?_, ⟨[], [], by simp⟩⟩
    · intro e he hne
      exact absurd ((mem_stringSetOf _ _).mp
        (hba e ((mem_stringSetOf _ _).mpr he))) hne
    · intro e he hne
      exact absurd ((mem_stringSetOf _ _).mp
        (hab e ((mem_stringSetOf _ _).mpr he))) hne
  · rw [if_neg hEq]
    have hdel : ∀ e, ((sortStrings ((stringSetOf liveEntries).filter
        (fun x => decide (x ∉ stringSetOf activeEntries)))).count e)
        = ((stringSetOf liveEntries).filter
            (fun x => decide (x ∉ stringSetOf activeEntries))).count e :=
      fun e => (sortStrings_perm _).count_eq e
    have hadd : ∀ e, ((sortStrings ((stringSetOf activeEntries).filter
        (fun x => decide (x ∉ stringSetOf liveEntries)))).count e)
        = ((stringSetOf activeEntries).filter
            (fun x => decide (x ∉ stringSetOf liveEntries))).count e :=
      fun e => (sortStrings_perm _).count_eq e
    refine ⟨?_, ?_, ?_, ⟨_, _, rfl⟩⟩
    · intro e hea hel
      constructor
      · rw [List.count_append, count_del_map_del, count_del_map_add, hdel,
          List.count_eq_zero.mpr]
        intro hmem
        rw [List.mem_filter] at hmem
        exact (of_decide_eq_true hmem.2) ((mem_stringSetOf _ _).mpr hea)
      · rw [List.count_append, count_add_map_del, count_add_map_add, hadd,
          List.count_eq_zero.mpr]
        intro hmem
        rw [List.mem_filter] at hmem
        exact (of_decide_eq_true hmem.2) ((mem_stringSetOf _ _).mpr hel)
    · intro e hel hna
      constructor
      · rw [List.count_append, count_del_map_del, count_del_map_add, hdel,
          List.count_eq_one_of_mem
            (List.Nodup.filter _ (nodup_stringSetOf liveEntries))
            (by
              rw [List.mem_filter]
              refine ⟨(mem_stringSetOf _ _).mpr hel, decide_eq_true ?_⟩
              intro hD
              exact hna ((mem_stringSetOf _ _).mp hD))]
      · rw [List.count_append, count_add_map_del, count_add_map_add, hadd,
          List.count_eq_zero.mpr]
        intro hmem
        rw [List.mem_filter] at hmem
        exact hna ((mem_stringSetOf _ _).mp hmem.1)
    · intro e hea hnl
      constructor
      · rw [List.count_append, count_add_map_del, count_add_map_add, hadd,
          List.count_eq_one_of_mem
            (List.Nodup.filter _ (nodup_stringSetOf activeEntries))
            (by
              rw [List.mem_filter]
              refine ⟨(mem_stringSetOf _ _).mpr hea, decide_eq_true ?_⟩
              intro hL
              exact hnl ((mem_stringSetOf _ _).mp hL))]
      · rw [List.count_append, count_del_map_del, count_del_map_add, hdel,
          List.count_eq_zero.mpr]
        intro hmem
        rw [List.mem_filter] at hmem
        exact hnl ((mem_stringSetOf _ _).mp hmem.1)

theorem sync_minimal_diff_witness :
    ((syncIPSetEntries ["A", "B"] (some ["B", "C"])).count (IPSetOp.del "C") = 1
      ∧ (syncIPSetEntries ["A", "B"] (some ["B", "C"])).count (IPSetOp.add "C") = 0)
    ∧ ((syncIPSetEntries ["A", "B"] (some ["B", "C"])).count (IPSetOp.add "A") = 1
      ∧ (syncIPSetEntries ["A", "B"] (some ["B", "C"])).count (IPSetOp.del "A") = 0)
    ∧ ((syncIPSetEntries ["A", "B"] (some ["B", "C"])).count (IPSetOp.del "B") = 0
      ∧ (syncIPSetEntries ["A", "B"] (some ["B", "C"])).count (IPSetOp.add "B") = 0) := by
  have h := sync_minimal_diff ["A", "B"] ["B", "C"]
  exact ⟨h.2.1 "C" (by decide) (by decide), h.2.2.1 "A" (by decide) (by decide),
    h.1 "B" (by decide) (by decide)⟩

theorem runSync_map_fst (activeEntries : List String) (listResult : Option (List String))
    (fail : IPSetOp → Bool) :
    (runSync activeEntries listResult fail).map Prod.fst
      = syncIPSetEntries activeEntries listResult := by
  show (runSyncCalls fail (syncIPSetEntries activeEntries listResult)).map Prod.fst
    = syncIPSetEntries activeEntries listResult
  generalize syncIPSetEntries activeEntries listResult = ops
  induction ops with
  | nil => rfl
  | cons op rest ih => simp [runSyncCalls, ih]

/-- C7: the calls a sync pass issues do not depend on which individual
store calls fail (a failure is logged and the loop continues), and a
later pass over the same desired set and live listing issues any
previously failed call again. -/
theorem sync_failures_do_not_abort (activeEntries : List String)
    (listResult : Option (List String)) (f g : IPSetOp → Bool) :
    ((runSync activeEntries listResult f).map Prod.fst
        = syncIPSetEntries activeEntries listResult)
    ∧ (∀ op, (op, true) ∈ runSync activeEntries listResult f →
        op ∈ (runSync activeEntries listResult g).map Prod.fst) := by
  refine ⟨runSync_map_fst activeEntries listResult f, ?_⟩
  intro op h
  have h1 : op ∈ (runSync activeEntries listResult f).map Prod.fst :=
    List.mem_map_of_mem Prod.fst h
  rw [runSync_map_fst] at h1
  rw [runSync_map_fst]
  exact h1

theorem sync_failures_do_not_abort_witness :
    ((runSync ["10.0.0.1,tcp:80", "10.0.0.2,tcp:80"]
        (some ["10.0.0.2,tcp:80", "10.0.0.3,tcp:80"])
        (fun op => op == IPSetOp.add "10.0.0.1,tcp:80")).map Prod.fst
      = syncIPSetEntries ["10.0.0.1,tcp:80", "10.0.0.2,tcp:80"]
          (some ["10.0.0.2,tcp:80", "10.0.0.3,tcp:80"]))
    ∧ IPSetOp.add "10.0.0.1,tcp:80"
        ∈ (runSync ["10.0.0.1,tcp:80", "10.0.0.2,tcp:80"]
            (some ["10.0.0.2,tcp:80", "10.0.0.3,tcp:80"])
            (fun _ => false)).map Prod.fst := by
  have h := sync_failures_do_not_abort ["10.0.0.1,tcp:80", "10.0.0.2,tcp:80"]
    (some ["10.0.0.2,tcp:80", "10.0.0.3,tcp:80"])
    (fun op => op == IPSetOp.add "10.0.0.1,tcp:80") (fun _ => false)
  exact ⟨h.1, h.2 _ (by decide)⟩

theorem isEmpty_ignores_list_error_witness :
    (IPSet.isEmpty (fun _ => ⟨[], some "error listing set"⟩) "KUBE-LOOP-BACK" = true
      ↔ ([] : List String) = [])
    ∧ IPSet.isEmpty
        (fun n => ⟨((fun _ => (⟨[], some "error listing set"⟩ : ListEntriesResult)) n).entries,
          some "again"⟩) "KUBE-LOOP-BACK"
        = IPSet.isEmpty (fun _ => ⟨[], some "error listing set"⟩) "KUBE-LOOP-BACK" := by
  have h := isEmpty_ignores_list_error (fun _ => ⟨[], some "error listing set"⟩) "KUBE-LOOP-BACK"
  exact ⟨h.1, h.2 "again"⟩
